/-
Verification development for the YouTube manifest-extraction service
(`handler.py`: serverless handler; `handler_api.py`: always-on API server).

The Python sources are shallowly embedded below:
* pure selection / parsing functions become Lean functions over an explicit
  record type for the untyped variant dictionaries;
* network fetches are abstracted into an oracle `fetch : String → Option String`
  (`none` models any fetch/decode error, `some body` a successful response);
* the admission-controlled request path of `handler_api.py` becomes an explicit
  state-transition function over the server statistics plus a semaphore permit
  counter, parameterised by the request's externally determined outcome.
-/
import Mathlib

namespace YtdlpManifest

/-! ## String helpers

The embeddings below avoid `String.splitOn` / `String.startsWith` etc. in favour
of structurally recursive `List Char` implementations with identical behaviour
on the relevant inputs, so that concrete evaluations reduce in the kernel. -/

/-- Python `str.startswith`: embedded as list-prefix testing on the characters. -/
def strStartsWith (s pre : String) : Bool :=
  pre.toList.isPrefixOf s.toList

/-- Python `str.endswith`: embedded as list-suffix testing on the characters. -/
def strEndsWith (s suf : String) : Bool :=
  suf.toList.isSuffixOf s.toList

/-- Python `sub in s` (substring containment). -/
def strContains (s sub : String) : Bool :=
  (List.range (s.toList.length + 1)).any fun i => sub.toList.isPrefixOf (s.toList.drop i)

/-- Python `str.lower`, restricted to the ASCII case folding performed by
`Char.toLower` (the URLs and markers compared in the source are ASCII). -/
def strToLower (s : String) : String :=
  String.mk (s.toList.map Char.toLower)

/-- The whitespace characters stripped by Python `str.strip()` (ASCII range). -/
def isPySpace (c : Char) : Bool :=
  c = ' ' || c = '\t' || c = '\n' || c = '\r' || c = '\x0b' || c = '\x0c'

/-- Python `str.strip()`: drop leading and trailing whitespace. -/
def pyStrip (s : String) : String :=
  String.mk (((s.toList.dropWhile isPySpace).reverse.dropWhile isPySpace).reverse)

/-- Split a character list at every occurrence of `sep`, keeping empty groups —
the semantics of Python `str.split(sep)` with a one-character separator. -/
def splitOnChar (sep : Char) : List Char → List (List Char)
  | [] => [[]]
  | c :: cs =>
    let r := splitOnChar sep cs
    if c = sep then [] :: r
    else
      match r with
      | [] => [[c]]
      | g :: gs => (c :: g) :: gs

/-- Python `content.split('\n')` on a `String`. -/
def splitLines (content : String) : List String :=
  (splitOnChar '\n' content.toList).map String.mk

/-! ## Data model

`VariantDescriptor` dictionaries from the external tool are embedded as a
record of the fields the core reads; a missing key (or a key stored as `None`)
is `Option.none`.  `fragments` conflates a missing key with the empty list,
exactly as `f.get('fragments', [])` does. -/

/-- One entry of a variant's `fragments` list. -/
structure FragmentRef where
  url : Option String
  path : Option String
deriving DecidableEq

/-- A variant descriptor: the fields of the yt-dlp format dictionary that the
source code accesses.  Numeric JSON fields that Python reads as floats
(`fps`, `tbr`, `abr`) are embedded as rationals. -/
structure Format where
  format_id : Option String
  ext : Option String
  height : Option Int
  width : Option Int
  fps : Option ℚ
  vcodec : Option String
  acodec : Option String
  tbr : Option ℚ
  abr : Option ℚ
  filesize : Option Int
  filesize_approx : Option Int
  url : Option String
  fragments : List FragmentRef
deriving DecidableEq

/-! ## First maximum of a list

Both selection functions run `list.sort(key=score, reverse=True)` and take
element `[0]`.  Python's sort is stable and `reverse=True` preserves the
original relative order of elements with equal keys, so the head of the sorted
list is the *first* element of the original list attaining the maximal key.
`pickBest lt` computes exactly that element (`lt x y` meaning `x`'s key is
strictly below `y`'s). -/

def pickBest (lt : α → α → Bool) : List α → Option α
  | [] => none
  | x :: xs =>
    match pickBest lt xs with
    | none => some x
    | some y => if lt x y then some y else some x

/-- A `Bool`-valued strict linear order: the facts needed to reason about
`pickBest` when `lt` compares by a scoring key. -/
structure IsStrictLinear (lt : α → α → Bool) : Prop where
  irrefl : ∀ a, lt a a = false
  trans : ∀ a b c, lt a b = true → lt b c = true → lt a c = true
  total : ∀ a b, a = b ∨ lt a b = true ∨ lt b a = true

/-- The weaker facts `pickBest` reasoning needs.  Unlike `IsStrictLinear`,
these survive pulling back along a (non-injective) scoring key. -/
structure PickOrder (lt : α → α → Bool) : Prop where
  irrefl : ∀ a, lt a a = false
  asymm : ∀ a b, lt a b = true → lt b a = false
  resolve : ∀ a b c, lt a c = true → lt a b = true ∨ lt b c = true

/-- Lexicographic combination of two `Bool`-valued comparisons on a pair. -/
def lexLt [DecidableEq α] (la : α → α → Bool) (lb : β → β → Bool)
    (x y : α × β) : Bool :=
  la x.1 y.1 || (decide (x.1 = y.1) && lb x.2 y.2)

/-- The strict comparison of a linear order, as a `Bool`. -/
def decLt [LinearOrder α] (a b : α) : Bool := decide (a < b)


/-! ## Scoring and selection (`select_best_video_format` / `select_best_audio_format`)

The filter predicates and score functions below transcribe the list
comprehensions and inner `format_score` / `audio_score` functions of the two
sources (the bodies are identical in `handler.py` and `handler_api.py`). -/

/-- `f.get('height') is not None and f.get('height') <= max_height`. -/
def heightOk (f : Format) (max_height : Int) : Bool :=
  match f.height with
  | some h => decide (h ≤ max_height)
  | none => false

/-- The first video filter:
`f.get('vcodec') != 'none' and f.get('acodec') == 'none'` plus the height test.
Note the source compares against the *string* `'none'`: a variant whose
`vcodec` key is absent passes the first conjunct. -/
def videoOnlyEligible (f : Format) (max_height : Int) : Bool :=
  decide (f.vcodec ≠ some "none") && decide (f.acodec = some "none")
    && heightOk f max_height

/-- The fallback video filter: as above but without the `acodec == 'none'`
(muxed-audio) restriction. -/
def videoEligible (f : Format) (max_height : Int) : Bool :=
  decide (f.vcodec ≠ some "none") && heightOk f max_height

/-- The audio filter: `f.get('vcodec') == 'none' and f.get('acodec') != 'none'`. -/
def audioEligible (f : Format) : Bool :=
  decide (f.vcodec = some "none") && decide (f.acodec ≠ some "none")

/-- `has_direct_fragments` inside `format_score`: more than one fragment, or
exactly one whose `url` starts with `https://` and does not contain
`manifest` (case-insensitively). -/
def has_direct_fragments (f : Format) : Bool :=
  decide (f.fragments.length > 1) ||
  (decide (f.fragments.length = 1) &&
    (let u := (f.fragments.headD ⟨none, none⟩).url.getD ""
     strStartsWith u "https://" && !(strContains (strToLower u) "manifest")))

/-- `is_hls` inside `format_score`:
`'manifest' in url.lower() or url.endswith('.m3u8')` with `url = f.get('url', '')`. -/
def is_hls (f : Format) : Bool :=
  let url := f.url.getD ""
  strContains (strToLower url) "manifest" || strEndsWith url ".m3u8"

/-- The fragment-directness rank: 3 for direct fragments, 2 for a non-empty
non-HLS direct URL (`elif url and not is_hls`), 1 otherwise. -/
def url_score (f : Format) : Nat :=
  if has_direct_fragments f then 3
  else if !(decide (f.url.getD "" = "")) && !(is_hls f) then 2
  else 1

/-- The container rank: `webm` 2, `mp4` 1, anything else 0. -/
def ext_score (f : Format) : Nat :=
  if f.ext.getD "" = "webm" then 2
  else if f.ext.getD "" = "mp4" then 1
  else 0

/-- `format_score`: the tuple `(url_score, ext_score, height, tbr)` with
`height = f.get('height', 0)` and `tbr = f.get('tbr', 0) or 0`. -/
def format_score (f : Format) : Nat × Nat × Int × ℚ :=
  (url_score f, ext_score f, f.height.getD 0, f.tbr.getD 0)

/-- Lexicographic comparison of video score tuples, as Python compares the
4-tuples returned by `format_score`. -/
def scoreLt : Nat × Nat × Int × ℚ → Nat × Nat × Int × ℚ → Bool :=
  lexLt decLt (lexLt decLt (lexLt decLt decLt))

/-- Comparison of two formats by video score. -/
def videoLt (a b : Format) : Bool := scoreLt (format_score a) (format_score b)

/-- `audio_score`: `(1 if f.get('ext') == 'm4a' else 0, f.get('abr', 0) or 0)`. -/
def audio_score (f : Format) : Nat × ℚ :=
  (if f.ext = some "m4a" then 1 else 0, f.abr.getD 0)

/-- Lexicographic comparison of audio score pairs. -/
def audioScoreLt : Nat × ℚ → Nat × ℚ → Bool := lexLt decLt decLt

/-- Comparison of two formats by audio score. -/
def audioLt (a b : Format) : Bool := audioScoreLt (audio_score a) (audio_score b)

/-! ## Fragment resolution

`extract_fragment_urls`, `fetch_hls_segments` and the playlist parsing are
byte-for-byte identical in the two sources (the API file merely splits the
fetch into a sync helper); they are embedded once, with the HTTP fetch
abstracted into a `fetch` oracle. -/

/-- One iteration of the fragment-URL loop:
`url = f.get('url') or f.get('path'); if url: urls.append(url)`.
Python `or` treats the empty string like a missing value, and the final
truthiness test drops an empty result. -/
def keptUrl (fr : FragmentRef) : Option String :=
  let url :=
    match fr.url with
    | some s => if s = "" then fr.path else some s
    | none => fr.path
  match url with
  | some s => if s = "" then none else some s
  | none => none

/-- The playlist test used by `extract_fragment_urls`:
`'manifest' in url.lower() or '.m3u8' in url.lower()`. -/
def isPlaylistUrl (u : String) : Bool :=
  strContains (strToLower u) "manifest" || strContains (strToLower u) ".m3u8"

/-- `manifest_url.rsplit('/', 1)[0] + '/'`: the manifest URL truncated to its
last path segment, with the trailing slash restored (when the URL has no
slash at all, Python's `rsplit` leaves it whole). -/
def baseUrl (u : String) : String :=
  if u.toList.contains '/' then
    String.mk ((u.toList.reverse.dropWhile (· != '/')).reverse)
  else u ++ "/"

/-- The line filter of the playlist parser:
`if line and not line.startswith('#')`. -/
def keepLine (line : String) : Bool :=
  !(decide (line = "")) && !(strStartsWith line "#")

/-- Segment resolution for one kept line: keep absolute URLs
(`line.startswith('http')`) as-is, otherwise prepend the base URL. -/
def resolveLine (base line : String) : String :=
  if strStartsWith line "http" then line else base ++ line

/-- The parsing loop of `_fetch_hls_segments_sync` / `fetch_hls_segments`:
split the body on newlines, strip each line, skip blank and `#` lines, and
resolve the rest against the manifest's base URL, in file order. -/
def parse_hls_manifest (manifest_url content : String) : List String :=
  let base := baseUrl manifest_url
  (splitLines content).filterMap fun raw =>
    let line := pyStrip raw
    if keepLine line then some (resolveLine base line) else none

/-- `fetch_hls_segments`: fetch the manifest and parse it; any fetch/decode
error is caught and yields `[]` (`except Exception: return []`). -/
def fetch_hls_segments (fetch : String → Option String) (manifest_url : String) :
    List String :=
  match fetch manifest_url with
  | some content => parse_hls_manifest manifest_url content
  | none => []

/-- `extract_fragment_urls(format_info, fetch_hls)`.  The source first takes
the `if fragments:` branch (non-empty fragment list); the embedding tests
emptiness first, which is the same split with the branches swapped. -/
def extract_fragment_urls (fetch : String → Option String) (format_info : Format)
    (fetch_hls : Bool) : List String :=
  let fragments := format_info.fragments
  if fragments.isEmpty then
    -- `url = format_info.get('url'); if url: ...; return []`
    match format_info.url with
    | some url =>
      if url = "" then []
      else if fetch_hls && isPlaylistUrl url then
        let hls := fetch_hls_segments fetch url
        if hls.isEmpty then [url] else hls
      else [url]
    | none => []
  else
    let urls := fragments.filterMap keptUrl
    -- `if len(urls) == 1 and fetch_hls:` — possibly expand a lone playlist ref
    if decide (urls.length = 1) && fetch_hls then
      match urls with
      | [url] =>
        if isPlaylistUrl url then
          let hls := fetch_hls_segments fetch url
          if hls.isEmpty then urls else hls
        else urls
      | _ => urls
    else urls

/-! ## Manifest record (`create_manifest`) -/

/-- The manifest dictionary assembled by `create_manifest`. -/
structure Manifest where
  format_id : Option String
  ext : Option String
  resolution : String
  height : Option Int
  width : Option Int
  fps : Option ℚ
  vcodec : Option String
  acodec : Option String
  tbr : Option ℚ
  abr : Option ℚ
  filesize : Option Int
  fragment_count : Nat
  fragments : List String
  url : Option String
deriving DecidableEq

/-- `f"{format_info.get('width', '?')}"`: an integer field rendered into the
resolution string, `'?'` when missing. -/
def optIntStr : Option Int → String
  | some n => toString n
  | none => "?"

/-- `format_info.get('filesize') or format_info.get('filesize_approx')`:
Python `or` falls through on `None` and on a zero size. -/
def pyOrFilesize (a b : Option Int) : Option Int :=
  match a with
  | some n => if n = 0 then b else some n
  | none => b

/-- `create_manifest(format_info, fragments)` (identical in both sources). -/
def create_manifest (format_info : Format) (fragments : List String) : Manifest :=
  { format_id := format_info.format_id
    ext := format_info.ext
    resolution := optIntStr format_info.width ++ "x" ++ optIntStr format_info.height
    height := format_info.height
    width := format_info.width
    fps := format_info.fps
    vcodec := format_info.vcodec
    acodec := format_info.acodec
    tbr := format_info.tbr
    abr := format_info.abr
    filesize := pyOrFilesize format_info.filesize format_info.filesize_approx
    fragment_count := fragments.length
    fragments := fragments
    url := if fragments.isEmpty then format_info.url else none }

/-! ## Admission controller (`handler_api.py` only)

The `/extract` endpoint is embedded as a state-transition function.  The
state is the `Stats` record plus the semaphore's available-permit count; the
externally determined fate of the request (queue-wait timeout, successful
extraction, or a failing extraction — including the yt-dlp timeout, which the
code turns into a generic exception) is an `Outcome` input.  Besides the final
state and response, the function reports the ordered list of admission events
it performed, so that slot accounting can be stated as trace properties. -/

/-- Admission bookkeeping events of one request. -/
inductive Event where
  | enterQueue
  | rejectOverloaded
  | acquireSlot
  | releaseSlot
deriving DecidableEq

/-- The externally determined fate of a request: the queue wait timed out, or
a slot was obtained and the extraction body succeeded/failed after `elapsed`
seconds of processing time. -/
inductive Outcome where
  | queueTimeout
  | success (elapsed : ℚ)
  | failure (elapsed : ℚ) (msg : String)
deriving DecidableEq

/-- The processing time consumed by an outcome. -/
def Outcome.elapsedTime : Outcome → ℚ
  | .queueTimeout => 0
  | .success e => e
  | .failure e _ => e

/-- The `Stats` singleton of `handler_api.py`. -/
structure Stats where
  active_extractions : Int
  total_extractions : Int
  failed_extractions : Int
  queue_full_rejections : Int
  peak_concurrent : Int
  total_extraction_time : ℚ
  waiting_in_queue : Int
deriving DecidableEq

/-- Server state: the stats record plus the extraction semaphore's available
permits. -/
structure ServerState where
  stats : Stats
  permits : Int
deriving DecidableEq

/-- The HTTP-level result of a request: a successful `ExtractResponse`, or an
`HTTPException(status_code, detail)`. -/
inductive Response where
  | completed
  | httpError (status : Nat) (detail : String)
deriving DecidableEq

/-- The 503 detail string raised on queue timeout. -/
def overloadDetail (active : Int) : String :=
  "Server overloaded. " ++ toString active ++ " extractions in progress. Retry later."

namespace HandlerApi

/-- `select_best_video_format` of `handler_api.py`: filter to video-only
variants under the ceiling, fall back to muxed variants, then take the head
of the stable descending sort by `format_score` (the first score-maximal
candidate). -/
def select_best_video_format (formats : List Format) (max_height : Int) :
    Except String Format :=
  let video_formats := formats.filter (fun f => videoOnlyEligible f max_height)
  let video_formats :=
    if video_formats.isEmpty then formats.filter (fun f => videoEligible f max_height)
    else video_formats
  match pickBest videoLt video_formats with
  | some f => .ok f
  | none => .error ("No video format found with height <= " ++ toString max_height)

/-- `select_best_audio_format` of `handler_api.py`: filter to audio-only
variants and take the first `audio_score`-maximal one. -/
def select_best_audio_format (formats : List Format) : Except String Format :=
  let audio_formats := formats.filter audioEligible
  match pickBest audioLt audio_formats with
  | some f => .ok f
  | none => .error "No audio-only format found"

/-- The slot-holding part of `/extract`: semaphore acquired, then
`waiting -= 1; active += 1; total += 1; peak = max(peak, active)`, the body
(recording a failure if the extraction raised), and the `finally` block
(`active -= 1; total_extraction_time += elapsed; semaphore.release()`). -/
def runAcquired (s1 : ServerState) (elapsed : ℚ) (failed : Option String) :
    ServerState × Response × List Event :=
  -- `await extraction_semaphore.acquire()`
  let s2 : ServerState := { s1 with permits := s1.permits - 1 }
  -- got a slot: the atomic bookkeeping block
  let s3 : ServerState := { s2 with stats := { s2.stats with
      waiting_in_queue := s2.stats.waiting_in_queue - 1,
      active_extractions := s2.stats.active_extractions + 1,
      total_extractions := s2.stats.total_extractions + 1 } }
  let s4 : ServerState :=
    if s3.stats.active_extractions > s3.stats.peak_concurrent then
      { s3 with stats := { s3.stats with peak_concurrent := s3.stats.active_extractions } }
    else s3
  -- the request body: `except Exception: failed_extractions += 1`
  let s5 : ServerState :=
    match failed with
    | some _ => { s4 with stats := { s4.stats with
        failed_extractions := s4.stats.failed_extractions + 1 } }
    | none => s4
  -- the `finally` block
  let s6 : ServerState := { s5 with
      stats := { s5.stats with
        active_extractions := s5.stats.active_extractions - 1,
        total_extraction_time := s5.stats.total_extraction_time + elapsed },
      permits := s5.permits + 1 }
  let resp :=
    match failed with
    | some msg => Response.httpError 500 msg
    | none => Response.completed
  (s6, resp, [Event.enterQueue, Event.acquireSlot, Event.releaseSlot])

/-- The `/extract` endpoint `extract_manifests` of `handler_api.py`, as a
transition on the server state for a request with fate `o`. -/
def extract_manifests (st : ServerState) (o : Outcome) :
    ServerState × Response × List Event :=
  -- `stats.waiting_in_queue += 1`
  let s1 : ServerState := { st with stats := { st.stats with
      waiting_in_queue := st.stats.waiting_in_queue + 1 } }
  match o with
  | .queueTimeout =>
    -- `except asyncio.TimeoutError:` — no token was granted
    let s2 : ServerState := { s1 with stats := { s1.stats with
        waiting_in_queue := s1.stats.waiting_in_queue - 1,
        queue_full_rejections := s1.stats.queue_full_rejections + 1 } }
    (s2, Response.httpError 503 (overloadDetail s2.stats.active_extractions),
      [Event.enterQueue, Event.rejectOverloaded])
  | .success elapsed => runAcquired s1 elapsed none
  | .failure elapsed msg => runAcquired s1 elapsed (some msg)

/-- Sequential processing of a batch of requests to completion. -/
def processAll (st : ServerState) (os : List Outcome) : ServerState :=
  os.foldl (fun s o => (extract_manifests s o).1) st

end HandlerApi

namespace Handler

/-- `select_best_video_format` of `handler.py`: same filters, score and sort
as the API version; only the not-found message differs (`≤` vs `<=`). -/
def select_best_video_format (formats : List Format) (max_height : Int) :
    Except String Format :=
  let video_formats := formats.filter (fun f => videoOnlyEligible f max_height)
  let video_formats :=
    if video_formats.isEmpty then formats.filter (fun f => videoEligible f max_height)
    else video_formats
  match pickBest videoLt video_formats with
  | some f => .ok f
  | none => .error ("No video format found with height ≤ " ++ toString max_height)

/-- `select_best_audio_format` of `handler.py` — verbatim the API version. -/
def select_best_audio_format (formats : List Format) : Except String Format :=
  let audio_formats := formats.filter audioEligible
  match pickBest audioLt audio_formats with
  | some f => .ok f
  | none => .error "No audio-only format found"

end Handler

/-! ## Concrete fixtures used by the witness theorems -/

/-- A variant descriptor with every field absent. -/
def baseFormat : Format :=
  { format_id := none, ext := none, height := none, width := none, fps := none,
    vcodec := none, acodec := none, tbr := none, abr := none, filesize := none,
    filesize_approx := none, url := none, fragments := [] }

/-- A 360p video-only DASH-style variant with two direct fragment URLs. -/
def demoDashVideo : Format :=
  { baseFormat with
    format_id := some "243"
    ext := some "webm"
    vcodec := some "vp9"
    acodec := some "none"
    height := some 360
    tbr := some 500
    fragments := [{ url := some "https://cdn.example/a1", path := none },
                  { url := some "https://cdn.example/a2", path := none }] }

/-- A 720p video-only variant exposing a single direct (non-playlist) URL. -/
def demoProgVideo : Format :=
  { baseFormat with
    format_id := some "22"
    ext := some "mp4"
    vcodec := some "avc1"
    acodec := some "none"
    height := some 720
    tbr := some 1200
    url := some "https://cdn.example/video.mp4" }

/-- An audio-only m4a variant. -/
def demoAudio : Format :=
  { baseFormat with
    format_id := some "140"
    ext := some "m4a"
    vcodec := some "none"
    acodec := some "mp4a.40.2"
    abr := some 128 }

/-- A second audio-only variant with the same audio score as `demoAudio`. -/
def demoAudioTie : Format :=
  { baseFormat with
    format_id := some "140-alt"
    ext := some "m4a"
    vcodec := some "none"
    acodec := some "mp4a.40.2"
    abr := some 128 }

/-- A variant whose only fragment reference is an HLS playlist manifest. -/
def demoHlsVideo : Format :=
  { baseFormat with
    format_id := some "hls-1"
    ext := some "mp4"
    vcodec := some "avc1"
    acodec := some "none"
    height := some 480
    fragments := [{ url := some "https://host/path/manifest.m3u8", path := none }] }

/-- A variant carrying an HLS playlist manifest as its direct URL. -/
def demoHlsUrlVideo : Format :=
  { baseFormat with
    format_id := some "hls-2"
    ext := some "mp4"
    vcodec := some "avc1"
    acodec := some "none"
    height := some 480
    url := some "https://host/path/manifest.m3u8" }

/-- A fresh server state: all counters zero, the full permit pool available. -/
def initState : ServerState :=
  { stats := { active_extractions := 0, total_extractions := 0,
               failed_extractions := 0, queue_full_rejections := 0,
               peak_concurrent := 0, total_extraction_time := 0,
               waiting_in_queue := 0 },
    permits := 80 }


/-- A small playlist body: a comment line, two segment lines, one blank line. -/
def demoManifestBody : String := "#EXTM3U\nseg1.ts\n\nseg2.ts"

/-- The URL the demo playlist is served from. -/
def demoManifestUrl : String := "https://host/path/man.m3u8"

/-- A fetch oracle serving exactly the demo playlist. -/
def demoFetch : String → Option String :=
  fun v => if v = demoManifestUrl then some demoManifestBody else none


/-! ## Order and selection lemmas -/

theorem IsStrictLinear.asymm {lt : α → α → Bool} (H : IsStrictLinear lt)
    {a b : α} (h : lt a b = true) : lt b a = false := by
  cases hba : lt b a with
  | false => rfl
  | true =>
    have := H.irrefl a
    rw [H.trans a b a h hba] at this
    exact Bool.noConfusion this

theorem IsStrictLinear.resolve {lt : α → α → Bool} (H : IsStrictLinear lt)
    {a c : α} (b : α) (h : lt a c = true) : lt a b = true ∨ lt b c = true := by
  rcases H.total a b with rfl | hab | hba
  · exact Or.inr h
  · exact Or.inl hab
  · exact Or.inr (H.trans b a c hba h)

theorem lexLt_strict [DecidableEq α] {la : α → α → Bool} {lb : β → β → Bool}
    (Ha : IsStrictLinear la) (Hb : IsStrictLinear lb) :
    IsStrictLinear (lexLt la lb) := by
  constructor
  · intro a
    simp [lexLt, Ha.irrefl, Hb.irrefl]
  · intro a b c hab hbc
    simp only [lexLt, Bool.or_eq_true, Bool.and_eq_true, decide_eq_true_eq] at *
    rcases hab with h1 | ⟨e1, h1⟩
    · rcases hbc with h2 | ⟨e2, h2⟩
      · exact Or.inl (Ha.trans _ _ _ h1 h2)
      · exact Or.inl (e2 ▸ h1)
    · rcases hbc with h2 | ⟨e2, h2⟩
      · exact Or.inl (e1 ▸ h2)
      · exact Or.inr ⟨e1.trans e2, Hb.trans _ _ _ h1 h2⟩
  · intro a b
    rcases Ha.total a.1 b.1 with e | h | h
    · rcases Hb.total a.2 b.2 with e2 | h2 | h2
      · exact Or.inl (Prod.ext e e2)
      · exact Or.inr (Or.inl (by simp [lexLt, e, h2]))
      · exact Or.inr (Or.inr (by simp [lexLt, e, h2]))
    · exact Or.inr (Or.inl (by simp [lexLt, h]))
    · exact Or.inr (Or.inr (by simp [lexLt, h]))

theorem decLt_strict [LinearOrder α] : IsStrictLinear (decLt (α := α)) := by
  constructor
  · intro a; simp [decLt]
  · intro a b c h1 h2
    simp only [decLt, decide_eq_true_eq] at *
    exact lt_trans h1 h2
  · intro a b
    rcases lt_trichotomy a b with h | h | h
    · exact Or.inr (Or.inl (by simp [decLt, h]))
    · exact Or.inl h
    · exact Or.inr (Or.inr (by simp [decLt, h]))

theorem pickBest_eq_none {lt : α → α → Bool} {l : List α} :
    pickBest lt l = none ↔ l = [] := by
  cases l with
  | nil => simp [pickBest]
  | cons x xs =>
    simp only [pickBest]
    cases pickBest lt xs with
    | none => simp
    | some y =>
      by_cases h : lt x y = true <;> simp [h]

theorem pickBest_mem {lt : α → α → Bool} {l : List α} {x : α}
    (h : pickBest lt l = some x) : x ∈ l := by
  induction l generalizing x with
  | nil => simp [pickBest] at h
  | cons a as ih =>
    rw [pickBest] at h
    cases hp : pickBest lt as with
    | none =>
      rw [hp] at h
      simp only [Option.some.injEq] at h
      exact h ▸ List.mem_cons_self a as
    | some y =>
      rw [hp] at h
      simp only at h
      split at h
      · simp only [Option.some.injEq] at h
        exact h ▸ List.mem_cons_of_mem a (ih hp)
      · simp only [Option.some.injEq] at h
        exact h ▸ List.mem_cons_self a as

theorem IsStrictLinear.toPickOrder {lt : α → α → Bool} (H : IsStrictLinear lt) :
    PickOrder lt :=
  ⟨H.irrefl, fun _ _ h => H.asymm h, fun _ b _ h => H.resolve b h⟩

theorem PickOrder.comap {β : Type} {L : β → β → Bool} (H : PickOrder L) (k : α → β) :
    PickOrder (fun a b => L (k a) (k b)) :=
  ⟨fun a => H.irrefl (k a), fun a b h => H.asymm (k a) (k b) h,
   fun a b c h => H.resolve (k a) (k b) (k c) h⟩

theorem pickBest_not_lt {lt : α → α → Bool} (H : PickOrder lt)
    {l : List α} {x : α} (h : pickBest lt l = some x) :
    ∀ g ∈ l, lt x g = false := by
  induction l generalizing x with
  | nil => simp [pickBest] at h
  | cons a as ih =>
    rw [pickBest] at h
    cases hp : pickBest lt as with
    | none =>
      rw [hp] at h
      simp only [Option.some.injEq] at h
      have hnil : as = [] := pickBest_eq_none.mp hp
      rw [← h, hnil]
      intro g hg
      rcases List.mem_singleton.mp hg with rfl
      exact H.irrefl _
    | some y =>
      rw [hp] at h
      simp only at h
      split at h
      case isTrue hlt =>
        simp only [Option.some.injEq] at h
        rw [← h]
        intro g hg
        rcases List.mem_cons.mp hg with rfl | hg'
        · exact H.asymm _ _ hlt
        · exact ih hp g hg'
      case isFalse hlt =>
        simp only [Option.some.injEq] at h
        rw [← h]
        intro g hg
        rcases List.mem_cons.mp hg with rfl | hg'
        · exact H.irrefl _
        · cases hxg : lt a g with
          | false => rfl
          | true =>
            rcases H.resolve a y g hxg with h1 | h1
            · rw [h1] at hlt; exact (hlt rfl).elim
            · rw [ih hp g hg'] at h1; exact Bool.noConfusion h1

theorem pickBest_first {lt : α → α → Bool} {l : List α} {x : α}
    (h : pickBest lt l = some x) :
    ∃ l₁ l₂, l = l₁ ++ x :: l₂ ∧ ∀ g ∈ l₁, lt g x = true := by
  induction l generalizing x with
  | nil => simp [pickBest] at h
  | cons a as ih =>
    rw [pickBest] at h
    cases hp : pickBest lt as with
    | none =>
      rw [hp] at h
      simp only [Option.some.injEq] at h
      rw [← h]
      exact ⟨[], as, rfl, by simp⟩
    | some y =>
      rw [hp] at h
      simp only at h
      split at h
      case isTrue hlt =>
        simp only [Option.some.injEq] at h
        rw [← h]
        obtain ⟨l₁, l₂, hsplit, hall⟩ := ih hp
        refine ⟨a :: l₁, l₂, by simp [hsplit], ?_⟩
        intro g hg
        rcases List.mem_cons.mp hg with rfl | hg'
        · exact hlt
        · exact hall g hg'
      case isFalse hlt =>
        simp only [Option.some.injEq] at h
        rw [← h]
        exact ⟨[], as, rfl, by simp⟩


/-! ## Strictness of the score comparisons -/

theorem scoreLt_strict : IsStrictLinear scoreLt :=
  lexLt_strict decLt_strict (lexLt_strict decLt_strict (lexLt_strict decLt_strict decLt_strict))

theorem audioScoreLt_strict : IsStrictLinear audioScoreLt :=
  lexLt_strict decLt_strict decLt_strict

theorem videoLt_pick : PickOrder videoLt :=
  scoreLt_strict.toPickOrder.comap format_score

theorem audioLt_pick : PickOrder audioLt :=
  audioScoreLt_strict.toPickOrder.comap audio_score

theorem videoOnly_imp_video {f : Format} {mh : Int}
    (h : videoOnlyEligible f mh = true) : videoEligible f mh = true := by
  simp only [videoOnlyEligible, videoEligible, Bool.and_eq_true] at *
  exact ⟨h.1.1, h.2⟩

/-- Unfolding of the API video selector into filter/pick form. -/
theorem select_video_api_eq (formats : List Format) (mh : Int) :
    HandlerApi.select_best_video_format formats mh =
      match pickBest videoLt
          (if (formats.filter (fun f => videoOnlyEligible f mh)).isEmpty
           then formats.filter (fun f => videoEligible f mh)
           else formats.filter (fun f => videoOnlyEligible f mh)) with
      | some f => Except.ok f
      | none => Except.error ("No video format found with height <= " ++ toString mh) :=
  rfl

/-- Unfolding of the serverless-handler video selector. -/
theorem select_video_handler_eq (formats : List Format) (mh : Int) :
    Handler.select_best_video_format formats mh =
      match pickBest videoLt
          (if (formats.filter (fun f => videoOnlyEligible f mh)).isEmpty
           then formats.filter (fun f => videoEligible f mh)
           else formats.filter (fun f => videoOnlyEligible f mh)) with
      | some f => Except.ok f
      | none => Except.error ("No video format found with height ≤ " ++ toString mh) :=
  rfl

/-! ## Claim C3: video selection -/

/-- C3: for every formats list and height ceiling, video selection returns a
variant with a present video codec (one not flagged `'none'`) and height ≤ the
ceiling, preferring video-only variants and falling back to muxed ones, and it
fails with the not-found error exactly when no variant satisfies the ceiling
even after the fallback. -/
theorem select_best_video_format_spec (formats : List Format) (max_height : Int) :
    (HandlerApi.select_best_video_format formats max_height
        = Except.error ("No video format found with height <= " ++ toString max_height)
      ↔ ∀ f ∈ formats, videoEligible f max_height = false) ∧
    (∀ f, HandlerApi.select_best_video_format formats max_height = Except.ok f →
      f ∈ formats ∧ videoEligible f max_height = true ∧
      ((∃ g ∈ formats, videoOnlyEligible g max_height = true) →
        videoOnlyEligible f max_height = true)) := by
  rw [select_video_api_eq]
  by_cases he : (formats.filter (fun f => videoOnlyEligible f max_height)).isEmpty
  · have hl1nil : formats.filter (fun f => videoOnlyEligible f max_height) = [] :=
      List.isEmpty_iff.mp he
    rw [if_pos he]
    cases hpick : pickBest videoLt (formats.filter (fun f => videoEligible f max_height)) with
    | none =>
      have hnil : formats.filter (fun f => videoEligible f max_height) = [] :=
        pickBest_eq_none.mp hpick
      constructor
      · constructor
        · intro _ f hf
          have := List.filter_eq_nil_iff.mp hnil f hf
          simpa using this
        · intro _; rfl
      · intro f hf
        simp at hf
    | some f0 =>
      constructor
      · constructor
        · intro h; simp at h
        · intro hall
          exfalso
          have hmem := List.mem_filter.mp (pickBest_mem hpick)
          rw [hall f0 hmem.1] at hmem
          exact Bool.noConfusion hmem.2
      · intro f hf
        simp only [Except.ok.injEq] at hf
        subst hf
        have hmem := List.mem_filter.mp (pickBest_mem hpick)
        refine ⟨hmem.1, hmem.2, ?_⟩
        rintro ⟨g, hg, hgel⟩
        exfalso
        have : g ∈ formats.filter (fun f => videoOnlyEligible f max_height) :=
          List.mem_filter.mpr ⟨hg, hgel⟩
        rw [hl1nil] at this
        simp at this
  · rw [if_neg he]
    cases hpick : pickBest videoLt (formats.filter (fun f => videoOnlyEligible f max_height)) with
    | none =>
      exfalso
      have := pickBest_eq_none.mp hpick
      rw [this] at he
      simp at he
    | some f0 =>
      constructor
      · constructor
        · intro h; simp at h
        · intro hall
          exfalso
          have hmem := List.mem_filter.mp (pickBest_mem hpick)
          have hel := videoOnly_imp_video hmem.2
          rw [hall f0 hmem.1] at hel
          exact Bool.noConfusion hel
      · intro f hf
        simp only [Except.ok.injEq] at hf
        subst hf
        have hmem := List.mem_filter.mp (pickBest_mem hpick)
        exact ⟨hmem.1, videoOnly_imp_video hmem.2, fun _ => hmem.2⟩

theorem select_best_video_format_spec_witness :
    HandlerApi.select_best_video_format [demoDashVideo, demoAudio] 720
        = Except.ok demoDashVideo ∧
    demoDashVideo ∈ [demoDashVideo, demoAudio] ∧
    videoEligible demoDashVideo 720 = true :=
  ⟨by rfl,
   ((select_best_video_format_spec [demoDashVideo, demoAudio] 720).2
      demoDashVideo (by rfl)).1,
   ((select_best_video_format_spec [demoDashVideo, demoAudio] 720).2
      demoDashVideo (by rfl)).2.1⟩

/-! ## Claim C4: fragment-directness outranks height -/

/-- C4: candidates are ranked by the lexicographic tuple
`(url_score, ext_score, height, tbr)`, highest first; a candidate with direct
fragments (rank 3) beats one exposing only a single direct non-playlist URL
(rank 2) even when the latter has strictly greater height, in either input
order. -/
theorem format_score_fragment_directness (a b : Format) (mh : Int)
    (ha : videoOnlyEligible a mh = true) (hb : videoOnlyEligible b mh = true)
    (hafrag : has_direct_fragments a = true)
    (hbfrag : has_direct_fragments b = false)
    (hburl : b.url.getD "" ≠ "") (hbhls : is_hls b = false)
    (hheight : a.height.getD 0 < b.height.getD 0) :
    scoreLt (format_score b) (format_score a) = true ∧
    HandlerApi.select_best_video_format [a, b] mh = Except.ok a ∧
    HandlerApi.select_best_video_format [b, a] mh = Except.ok a := by
  have hsa : url_score a = 3 := by simp [url_score, hafrag]
  have hsb : url_score b = 2 := by simp [url_score, hbfrag, hburl, hbhls]
  have hba : scoreLt (format_score b) (format_score a) = true := by
    simp [scoreLt, lexLt, decLt, format_score, hsa, hsb]
  have hab : scoreLt (format_score a) (format_score b) = false :=
    scoreLt_strict.asymm hba
  refine ⟨hba, ?_, ?_⟩
  · rw [select_video_api_eq]
    have hfil : [a, b].filter (fun f => videoOnlyEligible f mh) = [a, b] := by
      simp [List.filter, ha, hb]
    rw [hfil]
    simp [pickBest, videoLt, hab]
  · rw [select_video_api_eq]
    have hfil : [b, a].filter (fun f => videoOnlyEligible f mh) = [b, a] := by
      simp [List.filter, ha, hb]
    rw [hfil]
    simp [pickBest, videoLt, hba]

theorem format_score_fragment_directness_witness :
    videoOnlyEligible demoDashVideo 720 = true ∧
    has_direct_fragments demoDashVideo = true ∧
    has_direct_fragments demoProgVideo = false ∧
    HandlerApi.select_best_video_format [demoProgVideo, demoDashVideo] 720
      = Except.ok demoDashVideo :=
  ⟨by decide, by decide, by decide,
   (format_score_fragment_directness demoDashVideo demoProgVideo 720
      (by decide) (by decide) (by decide) (by decide) (by decide) (by decide)
      (by decide)).2.2⟩

/-! ## Claim C5: audio selection -/

/-- Unfolding of the audio selector into filter/pick form (identical in the
two sources). -/
theorem select_audio_api_eq (formats : List Format) :
    HandlerApi.select_best_audio_format formats =
      match pickBest audioLt (formats.filter audioEligible) with
      | some f => Except.ok f
      | none => Except.error "No audio-only format found" :=
  rfl

/-- C5: audio selection filters to variants with no video codec and a present
audio codec, returns a candidate whose `(container-preference, abr)` score is
maximal, keeps the earliest such candidate in input order (every earlier
filtered candidate scores strictly lower), and fails with the not-found error
exactly when no audio-only candidate exists. -/
theorem select_best_audio_format_spec (formats : List Format) :
    (HandlerApi.select_best_audio_format formats
        = Except.error "No audio-only format found"
      ↔ formats.filter audioEligible = []) ∧
    (∀ f, HandlerApi.select_best_audio_format formats = Except.ok f →
      f ∈ formats ∧ audioEligible f = true ∧
      (∀ g ∈ formats.filter audioEligible,
        audioScoreLt (audio_score f) (audio_score g) = false) ∧
      (∃ l₁ l₂, formats.filter audioEligible = l₁ ++ f :: l₂ ∧
        ∀ g ∈ l₁, audioScoreLt (audio_score g) (audio_score f) = true)) := by
  rw [select_audio_api_eq]
  cases hpick : pickBest audioLt (formats.filter audioEligible) with
  | none =>
    have hnil := pickBest_eq_none.mp hpick
    constructor
    · exact ⟨fun _ => hnil, fun _ => rfl⟩
    · intro f hf
      simp at hf
  | some f0 =>
    constructor
    · constructor
      · intro h; simp at h
      · intro hall
        have := pickBest_mem hpick
        rw [hall] at this
        simp at this
    · intro f hf
      simp only [Except.ok.injEq] at hf
      subst hf
      have hmem := List.mem_filter.mp (pickBest_mem hpick)
      exact ⟨hmem.1, hmem.2, pickBest_not_lt audioLt_pick hpick,
        pickBest_first hpick⟩

theorem select_best_audio_format_spec_witness :
    HandlerApi.select_best_audio_format [demoProgVideo, demoAudio, demoAudioTie]
        = Except.ok demoAudio ∧
    demoAudio ∈ [demoProgVideo, demoAudio, demoAudioTie] ∧
    audioEligible demoAudio = true :=
  ⟨by rfl,
   ((select_best_audio_format_spec [demoProgVideo, demoAudio, demoAudioTie]).2
      demoAudio (by rfl)).1,
   ((select_best_audio_format_spec [demoProgVideo, demoAudio, demoAudioTie]).2
      demoAudio (by rfl)).2.1⟩

/-! ## Claim C9: the two sources agree -/

/-- C9: on identical input the selection functions of `handler.py` and
`handler_api.py` return the same selected variant and fail under the same
condition (the video not-found messages differ only in the `≤` glyph; the
audio selectors are verbatim identical). -/
theorem handler_api_selectors_agree (formats : List Format) (mh : Int) :
    (∀ f, HandlerApi.select_best_video_format formats mh = Except.ok f ↔
          Handler.select_best_video_format formats mh = Except.ok f) ∧
    ((∃ e, HandlerApi.select_best_video_format formats mh = Except.error e) ↔
      (∃ e, Handler.select_best_video_format formats mh = Except.error e)) ∧
    HandlerApi.select_best_audio_format formats
      = Handler.select_best_audio_format formats := by
  refine ⟨?_, ?_, rfl⟩
  · rw [select_video_api_eq, select_video_handler_eq]
    cases pickBest videoLt
        (if (formats.filter (fun f => videoOnlyEligible f mh)).isEmpty
         then formats.filter (fun f => videoEligible f mh)
         else formats.filter (fun f => videoOnlyEligible f mh)) with
    | none => intro f; simp
    | some f0 => intro f; exact Iff.rfl
  · rw [select_video_api_eq, select_video_handler_eq]
    cases pickBest videoLt
        (if (formats.filter (fun f => videoOnlyEligible f mh)).isEmpty
         then formats.filter (fun f => videoEligible f mh)
         else formats.filter (fun f => videoOnlyEligible f mh)) with
    | none => exact ⟨fun _ => ⟨_, rfl⟩, fun _ => ⟨_, rfl⟩⟩
    | some f0 => simp

/-! ## Claims C1 and C2: admission control -/

theorem extract_manifests_active_eq (st : ServerState) (o : Outcome) :
    (HandlerApi.extract_manifests st o).1.stats.active_extractions
      = st.stats.active_extractions := by
  cases o with
  | queueTimeout => rfl
  | success e =>
    simp only [HandlerApi.extract_manifests, HandlerApi.runAcquired]
    split <;> simp
  | failure e m =>
    simp only [HandlerApi.extract_manifests, HandlerApi.runAcquired]
    split <;> simp

theorem processAll_active (os : List Outcome) (st : ServerState) :
    (HandlerApi.processAll st os).stats.active_extractions
      = st.stats.active_extractions := by
  induction os generalizing st with
  | nil => rfl
  | cons o os ih =>
    show (HandlerApi.processAll (HandlerApi.extract_manifests st o).1 os).stats.active_extractions
      = st.stats.active_extractions
    rw [ih, extract_manifests_active_eq]

/-- C1: for every request whose admission acquire succeeds (any fate other
than a queue timeout), the slot is released exactly once: the event trace has
exactly one acquire and one release, the active counter and the permit pool
return to their prior values, and the elapsed time is accumulated; processing
any batch of requests to completion from an idle state leaves the active
count at zero. -/
theorem extract_manifests_slot_released_once (st : ServerState) (o : Outcome)
    (h : o ≠ Outcome.queueTimeout) :
    ((HandlerApi.extract_manifests st o).2.2.count Event.acquireSlot = 1 ∧
     (HandlerApi.extract_manifests st o).2.2.count Event.releaseSlot = 1) ∧
    (HandlerApi.extract_manifests st o).1.stats.active_extractions
      = st.stats.active_extractions ∧
    (HandlerApi.extract_manifests st o).1.permits = st.permits ∧
    (HandlerApi.extract_manifests st o).1.stats.total_extraction_time
      = st.stats.total_extraction_time + o.elapsedTime ∧
    (∀ (os : List Outcome) (st₀ : ServerState),
      st₀.stats.active_extractions = 0 →
      (HandlerApi.processAll st₀ os).stats.active_extractions = 0) := by
  have hfold : ∀ (os : List Outcome) (st₀ : ServerState),
      st₀.stats.active_extractions = 0 →
      (HandlerApi.processAll st₀ os).stats.active_extractions = 0 := by
    intro os st₀ h0
    rw [processAll_active]
    exact h0
  cases o with
  | queueTimeout => exact absurd rfl h
  | success e =>
    refine ⟨⟨by rfl, by rfl⟩, extract_manifests_active_eq st _, ?_, ?_, hfold⟩
    · simp only [HandlerApi.extract_manifests, HandlerApi.runAcquired]
      split <;> simp
    · simp only [HandlerApi.extract_manifests, HandlerApi.runAcquired,
        Outcome.elapsedTime]
      split <;> simp
  | failure e m =>
    refine ⟨⟨by rfl, by rfl⟩, extract_manifests_active_eq st _, ?_, ?_, hfold⟩
    · simp only [HandlerApi.extract_manifests, HandlerApi.runAcquired]
      split <;> simp
    · simp only [HandlerApi.extract_manifests, HandlerApi.runAcquired,
        Outcome.elapsedTime]
      split <;> simp

theorem extract_manifests_slot_released_once_witness :
    (Outcome.success 2 ≠ Outcome.queueTimeout) ∧
    (HandlerApi.extract_manifests initState (Outcome.success 2)).1.stats.active_extractions
      = initState.stats.active_extractions ∧
    (HandlerApi.extract_manifests initState (Outcome.success 2)).1.permits
      = initState.permits :=
  ⟨by decide,
   (extract_manifests_slot_released_once initState (Outcome.success 2) (by decide)).2.1,
   (extract_manifests_slot_released_once initState (Outcome.success 2) (by decide)).2.2.1⟩

/-- C2: on a queue-wait timeout the waiting counter returns to its prior
value (the entry increment is undone), the rejection counter is incremented
exactly once, the active count, total count and permit pool are untouched, no
slot is acquired or released, and the caller receives the retryable 503
Overloaded response reporting the current active extraction count. -/
theorem extract_manifests_overload_rejection (st : ServerState) :
    (HandlerApi.extract_manifests st Outcome.queueTimeout).1.stats.waiting_in_queue
      = st.stats.waiting_in_queue ∧
    (HandlerApi.extract_manifests st Outcome.queueTimeout).1.stats.queue_full_rejections
      = st.stats.queue_full_rejections + 1 ∧
    (HandlerApi.extract_manifests st Outcome.queueTimeout).1.stats.active_extractions
      = st.stats.active_extractions ∧
    (HandlerApi.extract_manifests st Outcome.queueTimeout).1.stats.total_extractions
      = st.stats.total_extractions ∧
    (HandlerApi.extract_manifests st Outcome.queueTimeout).1.permits = st.permits ∧
    (HandlerApi.extract_manifests st Outcome.queueTimeout).2.1
      = Response.httpError 503 (overloadDetail st.stats.active_extractions) ∧
    (HandlerApi.extract_manifests st Outcome.queueTimeout).2.2.count Event.acquireSlot = 0 ∧
    (HandlerApi.extract_manifests st Outcome.queueTimeout).2.2.count Event.releaseSlot = 0 := by
  refine ⟨?_, rfl, rfl, rfl, rfl, rfl, by rfl, by rfl⟩
  show st.stats.waiting_in_queue + 1 - 1 = st.stats.waiting_in_queue
  omega

/-! ## Claim C6: no fragment list and no direct URL -/

/-- C6: for every variant carrying neither a fragment list nor a direct URL,
fragment resolution returns the empty list (the embedding is a total
function: no error is possible on any path). -/
theorem extract_fragment_urls_no_source (fetch : String → Option String)
    (fmt : Format) (b : Bool) (h1 : fmt.fragments = []) (h2 : fmt.url = none) :
    extract_fragment_urls fetch fmt b = [] := by
  simp [extract_fragment_urls, h1, h2]

theorem extract_fragment_urls_no_source_witness :
    baseFormat.fragments = [] ∧ baseFormat.url = none ∧
    extract_fragment_urls (fun _ => none) baseFormat true = [] :=
  ⟨rfl, rfl, extract_fragment_urls_no_source (fun _ => none) baseFormat true rfl rfl⟩

/-! ## Claim C7: playlist parsing -/

theorem filterMap_if_eq {β γ : Type} (g : α → β) (p : β → Bool) (h : β → γ) :
    ∀ l : List α,
      l.filterMap (fun a => if p (g a) then some (h (g a)) else none)
        = ((l.map g).filter p).map h := by
  intro l
  induction l with
  | nil => rfl
  | cons a l ih =>
    by_cases hp : p (g a) = true
    · simp [List.filterMap_cons, List.filter_cons, hp, ih]
    · simp [List.filterMap_cons, List.filter_cons, hp, ih]

/-- C7: a successfully fetched playlist is parsed line by line — each line is
stripped, blank and `#`-comment lines are skipped, absolute (`http…`) lines
are kept as-is and the others are resolved against the manifest URL truncated
to its last path segment — and the segments come back in the manifest's
original line order.  Concretely, `seg1.ts` against
`https://host/path/man.m3u8` resolves to `https://host/path/seg1.ts`. -/
theorem fetch_hls_segments_parses (fetch : String → Option String)
    (u content : String) (h : fetch u = some content) :
    fetch_hls_segments fetch u
      = (((splitLines content).map pyStrip).filter keepLine).map
          (resolveLine (baseUrl u)) ∧
    fetch_hls_segments demoFetch demoManifestUrl
      = ["https://host/path/seg1.ts", "https://host/path/seg2.ts"] ∧
    baseUrl demoManifestUrl = "https://host/path/" := by
  refine ⟨?_, by decide, by decide⟩
  simp only [fetch_hls_segments, h, parse_hls_manifest]
  exact filterMap_if_eq pyStrip keepLine (resolveLine (baseUrl u)) (splitLines content)

theorem fetch_hls_segments_parses_witness :
    demoFetch demoManifestUrl = some demoManifestBody ∧
    fetch_hls_segments demoFetch demoManifestUrl
      = (((splitLines demoManifestBody).map pyStrip).filter keepLine).map
          (resolveLine (baseUrl demoManifestUrl)) :=
  ⟨by rfl,
   (fetch_hls_segments_parses demoFetch demoManifestUrl demoManifestBody (by rfl)).1⟩

/-! ## Claim C8: soft failure of playlist expansion -/

/-- C8: when the playlist fetch fails, expansion returns `[]` instead of an
error, and both call sites of `extract_fragment_urls` fall back to the
original single manifest reference as the fragment list (the embedding is
total, so no failure can propagate to the caller). -/
theorem hls_fetch_soft_failure (fetch : String → Option String) (u : String)
    (fr : FragmentRef) (fmtA fmtB : Format)
    (h : fetch u = none)
    (hA1 : fmtA.fragments = [fr]) (hA2 : keptUrl fr = some u)
    (hA3 : isPlaylistUrl u = true)
    (hB1 : fmtB.fragments = []) (hB2 : fmtB.url = some u) (hu : u ≠ "") :
    fetch_hls_segments fetch u = [] ∧
    extract_fragment_urls fetch fmtA true = [u] ∧
    extract_fragment_urls fetch fmtB true = [u] := by
  have hfs : fetch_hls_segments fetch u = [] := by
    simp [fetch_hls_segments, h]
  refine ⟨hfs, ?_, ?_⟩
  · simp [extract_fragment_urls, hA1, List.filterMap_cons, hA2, hA3, hfs]
  · simp [extract_fragment_urls, hB1, hB2, hu, hA3, hfs]

theorem hls_fetch_soft_failure_witness :
    isPlaylistUrl "https://host/path/manifest.m3u8" = true ∧
    extract_fragment_urls (fun _ => none) demoHlsVideo true
      = ["https://host/path/manifest.m3u8"] ∧
    extract_fragment_urls (fun _ => none) demoHlsUrlVideo true
      = ["https://host/path/manifest.m3u8"] :=
  ⟨by decide,
   (hls_fetch_soft_failure (fun _ => none) "https://host/path/manifest.m3u8"
      { url := some "https://host/path/manifest.m3u8", path := none }
      demoHlsVideo demoHlsUrlVideo rfl rfl (by decide) (by decide) rfl rfl
      (by decide)).2.1,
   (hls_fetch_soft_failure (fun _ => none) "https://host/path/manifest.m3u8"
      { url := some "https://host/path/manifest.m3u8", path := none }
      demoHlsVideo demoHlsUrlVideo rfl rfl (by decide) (by decide) rfl rfl
      (by decide)).2.2⟩

/-! ## Claim C10: kept fragment entries -/

/-- C10: on a non-empty fragment list, resolution keeps each entry's `url`
(falling back to `path` when the `url` is absent/empty) in original order,
silently drops entries with neither, so the result can be shorter than the
fragment list, and the manifest's reported `fragment_count` counts only the
kept entries.  (With playlist expansion enabled the same holds whenever the
kept list does not collapse to a single entry.) -/
theorem extract_fragment_urls_kept_entries (fetch : String → Option String)
    (fmt : Format) (h : fmt.fragments ≠ []) :
    extract_fragment_urls fetch fmt false = fmt.fragments.filterMap keptUrl ∧
    ((fmt.fragments.filterMap keptUrl).length ≠ 1 →
      extract_fragment_urls fetch fmt true = fmt.fragments.filterMap keptUrl) ∧
    (fmt.fragments.filterMap keptUrl).length ≤ fmt.fragments.length ∧
    (create_manifest fmt (fmt.fragments.filterMap keptUrl)).fragment_count
      = (fmt.fragments.filterMap keptUrl).length ∧
    (∀ fr u, fr.url = some u → u ≠ "" → keptUrl fr = some u) ∧
    (∀ fr p, fr.url = none → fr.path = some p → p ≠ "" → keptUrl fr = some p) ∧
    (∀ fr, fr.url = none → fr.path = none → keptUrl fr = none) := by
  have hne : fmt.fragments.isEmpty = false := by simp [h]
  refine ⟨?_, ?_, List.length_filterMap_le keptUrl fmt.fragments, rfl, ?_, ?_, ?_⟩
  · simp [extract_fragment_urls, hne]
  · intro hlen
    simp [extract_fragment_urls, hne, hlen]
  · intro fr u h1 h2
    simp [keptUrl, h1, h2]
  · intro fr p h1 h2 h3
    simp [keptUrl, h1, h2, h3]
  · intro fr h1 h2
    simp [keptUrl, h1, h2]

theorem extract_fragment_urls_kept_entries_witness :
    demoDashVideo.fragments ≠ [] ∧
    extract_fragment_urls (fun _ => none) demoDashVideo false
      = demoDashVideo.fragments.filterMap keptUrl :=
  ⟨by decide,
   (extract_fragment_urls_kept_entries (fun _ => none) demoDashVideo (by decide)).1⟩

end YtdlpManifest
